import Mathlib

/-!
Verification of the repository-synchronization and substitution engine of
`repo_batch_update.py` (a batch find/replace tool for many git repositories).

The Python code is shallowly embedded:
* text is modelled as `List Char` (Python strings are sequences of code points);
* `str.count` / `str.replace` and the `re.IGNORECASE` literal search used in
  `perform_replacements` (lines 374-399) are modelled by explicit left-to-right
  non-overlapping scans;
* the per-repository pipeline `process_repo` (lines 628-807) is modelled as a
  pure function over an oracle (`GitEnv`) describing the results of every
  external `git`/HTTP collaborator call, a state carrying the ambient working
  directory, the trace of collaborator invocations, and the log entries;
* exceptions are modelled with `Except`, mirroring the `try/except/finally`
  structure of `process_repo`.
-/

namespace RepoBatch

/-- Python strings, as lists of code points. -/
abbrev Str := List Char

/-! ## Literal substring scanning (case-sensitive branch, lines 378-384)

`content.count(search)` and `content.replace(search, replace)` both scan
the content left to right, counting / replacing non-overlapping literal
occurrences and skipping past each match. -/

/-- `leadMatch p s` holds when `p` is a literal prefix of `s` (a match of the
pattern at the current scan position). -/
def leadMatch : Str → Str → Bool
  | [], _ => true
  | _ :: _, [] => false
  | a :: ps, b :: ss => if a = b then leadMatch ps ss else false

/-- Python's `search in content` test (line 380): `p` occurs somewhere in `s`. -/
def containsSub (p : Str) : Str → Bool
  | [] => leadMatch p []
  | c :: rest => leadMatch p (c :: rest) || containsSub p rest

/-- Left-to-right non-overlapping occurrence count of a nonempty pattern:
the scan of Python's `str.count` (line 382). -/
def countOcc (p : Str) : Str → Nat
  | [] => 0
  | c :: rest =>
    if p ≠ [] ∧ leadMatch p (c :: rest) then
      countOcc p (rest.drop (p.length - 1)) + 1
    else
      countOcc p rest
termination_by s => s.length
decreasing_by
  · simp [List.length_drop]; omega
  · simp

/-- Left-to-right non-overlapping replacement of a nonempty pattern `p` by `r`:
the scan of Python's `str.replace` (line 384). -/
def replaceOcc (p r : Str) : Str → Str
  | [] => []
  | c :: rest =>
    if p ≠ [] ∧ leadMatch p (c :: rest) then
      r ++ replaceOcc p r (rest.drop (p.length - 1))
    else
      c :: replaceOcc p r rest
termination_by s => s.length
decreasing_by
  · simp [List.length_drop]; omega
  · simp

/-- Prepend a character to the first segment of a split (used to build the
segment decomposition of a scan). -/
def consHead (c : Char) : List Str → List Str
  | [] => [[c]]
  | seg :: segs => (c :: seg) :: segs

/-- Specification-side decomposition: the segments of `s` between the
non-overlapping left-to-right matches of `p`.  `s` is exactly these segments
interleaved with the matches. -/
def splitOcc (p : Str) : Str → List Str
  | [] => [[]]
  | c :: rest =>
    if p ≠ [] ∧ leadMatch p (c :: rest) then
      [] :: splitOcc p (rest.drop (p.length - 1))
    else
      consHead c (splitOcc p rest)
termination_by s => s.length
decreasing_by
  · simp [List.length_drop]; omega
  · simp

/-- Join a list of segments, interleaving the separator between them. -/
def joinWith (sep : Str) : List Str → Str
  | [] => []
  | [x] => x
  | x :: y :: xs => x ++ sep ++ joinWith sep (y :: xs)

/-- Interleave `r` at every position of `s`, including both ends: the behavior
of Python's `str.replace` with an empty search pattern. -/
def interleave (r : Str) : Str → Str
  | [] => r
  | c :: rest => r ++ c :: interleave r rest

/-- Python's `content.count(search)` (line 382): an empty pattern counts
`len(content) + 1` occurrences. -/
def pyCount (p s : Str) : Nat :=
  if p = [] then s.length + 1 else countOcc p s

/-- Python's `content.replace(search, replace)` (line 384). -/
def pyReplace (p r s : Str) : Str :=
  if p = [] then interleave r s else replaceOcc p r s

/-! ## Case-insensitive branch (lines 386-397)

The code compiles `re.escape(search_str)` with `re.IGNORECASE`, counts the
matches with `finditer`, and substitutes with `pattern.sub(replace_str,
content)`.  An escaped pattern is a literal; `IGNORECASE` compares the
pattern and the content case-blind (modelled, for the ASCII range, by
lowering both sides).  `pattern.sub` parses the replacement string as a
template: a backslash begins an escape or group reference and is *not*
copied verbatim. -/

/-- Case folding of one code point, as Python lowercases the ASCII range
(`Char.toLower` maps `A`-`Z` to `a`-`z` and fixes everything else). -/
def lowerStr (s : Str) : Str := s.map Char.toLower

/-- Case-blind match of the literal pattern `p` at the current position. -/
def ciLeadMatch (p s : Str) : Bool := leadMatch (lowerStr p) (lowerStr s)

/-- Number of case-blind non-overlapping left-to-right matches of the literal
pattern `p`: the `len(list(pattern.finditer(content)))` of line 391. -/
def ciCountOcc (p : Str) : Str → Nat
  | [] => 0
  | c :: rest =>
    if p ≠ [] ∧ ciLeadMatch p (c :: rest) then
      ciCountOcc p (rest.drop (p.length - 1)) + 1
    else
      ciCountOcc p rest
termination_by s => s.length
decreasing_by
  · simp [List.length_drop]; omega
  · simp

/-- Case-blind non-overlapping replacement, inserting the already-expanded
template text `t` at each match: the splice performed by `pattern.sub`. -/
def ciReplaceOcc (p t : Str) : Str → Str
  | [] => []
  | c :: rest =>
    if p ≠ [] ∧ ciLeadMatch p (c :: rest) then
      t ++ ciReplaceOcc p t (rest.drop (p.length - 1))
    else
      c :: ciReplaceOcc p t rest
termination_by s => s.length
decreasing_by
  · simp [List.length_drop]; omega
  · simp

/-- Segments of the content between the case-blind matches. -/
def ciSplitOcc (p : Str) : Str → List Str
  | [] => [[]]
  | c :: rest =>
    if p ≠ [] ∧ ciLeadMatch p (c :: rest) then
      [] :: ciSplitOcc p (rest.drop (p.length - 1))
    else
      consHead c (ciSplitOcc p rest)
termination_by s => s.length
decreasing_by
  · simp [List.length_drop]; omega
  · simp

/-- True for the ASCII letters, the characters whose unknown escapes are
rejected by the template parser. -/
def asciiLetter (c : Char) : Bool :=
  ('a' ≤ c && c ≤ 'z') || ('A' ≤ c && c ≤ 'Z')

/-- True for the octal digits `0`-`7`. -/
def octDigit (c : Char) : Bool := '0' ≤ c && c ≤ '7'

/-- Numeric value of a digit character. -/
def digitVal (c : Char) : Nat := c.toNat - 48

/-- Recognized character escapes of CPython's replacement-template parser
(its `ESCAPES` table, minus the backslash which is handled separately). -/
def escChar (c : Char) : Option Char :=
  if c = 'a' then some '\x07'
  else if c = 'b' then some '\x08'
  else if c = 'f' then some '\x0C'
  else if c = 'n' then some '\n'
  else if c = 'r' then some '\x0D'
  else if c = 't' then some '\t'
  else if c = 'v' then some '\x0B'
  else none

/-- Expansion of a `pattern.sub` replacement string, following CPython's
`sre_parse.parse_template` for a compiled pattern that contains no groups
(which is always the case here, the pattern being `re.escape(search_str)`):
ordinary characters are copied; `\\` yields a backslash; the `ESCAPES` table
yields control characters; `\0` (with up to two more octal digits) and
three-octal-digit escapes yield the character with that code; any remaining
escape of an ASCII letter or digit is an error (`none`), as is a trailing
backslash; an escaped non-letter is kept with its backslash.  `\g<...>`
references are modelled as errors: with no groups in the pattern every such
reference except `\g<0>` is one, and `\g<0>` is not exercised here. -/
def expandTemplate : Str → Option Str
  | [] => some []
  | b :: rest =>
    if b ≠ '\\' then (expandTemplate rest).map (fun t => b :: t)
    else
      match rest with
      | [] => none
      | c :: rest' =>
        if c = '\\' then (expandTemplate rest').map (fun t => '\\' :: t)
        else if c = '0' then
          match rest' with
          | d1 :: d2 :: rest'' =>
            if octDigit d1 && octDigit d2 then
              (expandTemplate rest'').map
                (fun t => Char.ofNat (digitVal d1 * 8 + digitVal d2) :: t)
            else if octDigit d1 then
              (expandTemplate (d2 :: rest'')).map
                (fun t => Char.ofNat (digitVal d1) :: t)
            else (expandTemplate (d1 :: d2 :: rest'')).map (fun t => '\x00' :: t)
          | [d1] =>
            if octDigit d1 then some [Char.ofNat (digitVal d1)]
            else (expandTemplate [d1]).map (fun t => '\x00' :: t)
          | [] => some ['\x00']
        else if c.isDigit then
          match rest' with
          | d2 :: d3 :: rest'' =>
            if octDigit c && octDigit d2 && octDigit d3 then
              (expandTemplate rest'').map (fun t =>
                Char.ofNat ((digitVal c * 64 + digitVal d2 * 8 + digitVal d3) % 256) :: t)
            else none
          | _ => none
        else if c = 'g' then none
        else
          match escChar c with
          | some e => (expandTemplate rest').map (fun t => e :: t)
          | none =>
            if asciiLetter c then none
            else (expandTemplate rest').map (fun t => '\\' :: c :: t)

/-- Count reported by the case-insensitive branch (line 391); an empty pattern
matches at every gap. -/
def ciPyCount (p s : Str) : Nat :=
  if p = [] then s.length + 1 else ciCountOcc p s

/-- Splice of the expanded template `t` into `s` at every case-blind match. -/
def ciSplice (p t s : Str) : Str :=
  if p = [] then interleave t s else ciReplaceOcc p t s

/-- `pattern.sub(replace_str, content)` of line 396: parse the replacement as
a template, then splice its expansion at every match; a template error is the
`re.error` exception (`none`). -/
def ciSub (p r s : Str) : Option Str :=
  (expandTemplate r).map (fun t => ciSplice p t s)

/-! ## File selection (lines 334-345)

`perform_replacements` gathers `repo_path.rglob(pattern)` for each configured
pattern (with `'*'` meaning every entry, recursively) and keeps the regular
files whose root-relative path has no `.git` component. -/

/-- One entry found under the repository root: its root-relative path split
into components (`str(f.relative_to(repo_path)).split(os.sep)`), and whether
it is a regular file (`f.is_file()`). -/
structure DirEntry where
  parts : List String
  isFile : Bool
deriving DecidableEq

/-- The `all_files` accumulation of lines 336-341: for each pattern, `'*'`
contributes every entry and any other pattern contributes the entries it
glob-matches (the glob semantics itself is a parameter). -/
def gatherFiles (patterns : List String) (entries : List DirEntry)
    (globMatch : String → DirEntry → Bool) : List DirEntry :=
  (patterns.map (fun pat =>
    if pat = "*" then entries else entries.filter (globMatch pat))).flatten

/-- The `text_files` filter of lines 344-345: regular files whose relative
path contains no `.git` component. -/
def textFiles (patterns : List String) (entries : List DirEntry)
    (globMatch : String → DirEntry → Bool) : List DirEntry :=
  (gatherFiles patterns entries globMatch).filter
    (fun e => e.isFile && !(decide (".git" ∈ e.parts)))

/-! ## The substitution engine (lines 360-471) -/

/-- A file of the working tree, as the engine sees it: its root-relative path
and its decoded text content. -/
structure FileEntry where
  path : List String
  content : Str
deriving DecidableEq

/-- One entry of the `change_details` list (lines 432-436). -/
structure ChangeEntry where
  file : List String
  rule : Str
  matchCount : Nat
deriving DecidableEq

/-- The occurrence count the engine computes for one rule on one content:
`content.count(search_str)` when case-sensitive (line 382), the number of
case-blind matches when not (line 391). -/
def occCount (cs : Bool) (p s : Str) : Nat :=
  if cs then pyCount p s else ciPyCount p s

/-- The body of the inner per-file loop for one rule (lines 372-430), without
the logging: returns the content left on disk, the occurrence count that was
computed, and whether the file was rewritten.  Case-sensitive: skip unless
`search_str in content`, then count and replace literally.  Case-insensitive:
skip when there is no case-blind match, then substitute; a template error
raised by `pattern.sub` is caught by the `except` clause and skips the file.
In both modes the file is written, counted and logged only when the new
content differs from the old (line 399). -/
def ruleFileStep (cs : Bool) (search repl content : Str) : Str × Nat × Bool :=
  if cs then
    if containsSub search content then
      let cnt := pyCount search content
      let nc := pyReplace search repl content
      if 0 < cnt ∧ nc ≠ content then (nc, cnt, true) else (content, cnt, false)
    else (content, 0, false)
  else
    let cnt := ciPyCount search content
    if cnt = 0 then (content, 0, false)
    else
      match ciSub search repl content with
      | none => (content, cnt, false)
      | some nc => if nc ≠ content then (nc, cnt, true) else (content, cnt, false)

/-- One pass of a single rule over the file list (the loop of lines 372-437):
returns the resulting files, `rule_files_modified`, `rule_replacements`, and
the appended `change_details` entries, in file order. -/
def runRule (cs : Bool) (rule : Str × Str) :
    List FileEntry → List FileEntry × Nat × Nat × List ChangeEntry
  | [] => ([], 0, 0, [])
  | f :: fs =>
    let step := ruleFileStep cs rule.1 rule.2 f.content
    let out := runRule cs rule fs
    if step.2.2 then
      (⟨f.path, step.1⟩ :: out.1, out.2.1 + 1, out.2.2.1 + step.2.1,
        ⟨f.path, rule.1, step.2.1⟩ :: out.2.2.2)
    else
      (f :: out.1, out.2.1, out.2.2.1, out.2.2.2)

/-- All rules, in declared order, each seeing the files the previous rules
left on disk (lines 362-465): returns the final files, `files_modified`,
`total_replacements` and `change_details`. -/
def runRules (cs : Bool) :
    List (Str × Str) → List FileEntry → List FileEntry × Nat × Nat × List ChangeEntry
  | [], fs => (fs, 0, 0, [])
  | r :: rs, fs =>
    let first := runRule cs r fs
    let rest := runRules cs rs first.1
    (rest.1, first.2.1 + rest.2.1, first.2.2.1 + rest.2.2.1,
      first.2.2.2 ++ rest.2.2.2)

/-- The summary returned by `perform_replacements` (line 471), together with
the files left on disk. -/
structure EngineResult where
  files : List FileEntry
  filesSearched : Nat
  filesModified : Nat
  totalReplacements : Nat
  changeDetails : List ChangeEntry
deriving DecidableEq

/-- `perform_replacements` (lines 310-471) for an already-selected file list:
an empty rule list (line 327) or an empty file list (line 350) short-circuits
with an all-zero summary; otherwise every rule is applied over every file. -/
def performReplacements (cs : Bool) (rules : List (Str × Str))
    (files : List FileEntry) : EngineResult :=
  if rules = [] then ⟨files, 0, 0, 0, []⟩
  else if files = [] then ⟨files, 0, 0, 0, []⟩
  else
    let out := runRules cs rules files
    ⟨out.1, files.length, out.2.1, out.2.2.1, out.2.2.2⟩

/-! ## The per-file sample-line report (lines 404-422)

When a rule modifies a file, the engine splits the *old* content on newline
characters, reports (1-based) each line containing the pattern — case-blind
when the rule is case-insensitive — strips and truncates each reported line
to 100 characters, and stops after 10 lines. -/

/-- Python's `content.split(chr(10))` (line 405). -/
def splitLines : Str → List Str
  | [] => [[]]
  | c :: rest =>
    if c = '\n' then [] :: splitLines rest
    else consHead c (splitLines rest)

/-- Number the lines starting from `n` (the `enumerate(lines, 1)` of
line 409). -/
def numberFrom (n : Nat) : List Str → List (Nat × Str)
  | [] => []
  | l :: ls => (n, l) :: numberFrom (n + 1) ls

/-- The containment test of lines 410-413: literal when case-sensitive,
case-blind otherwise. -/
def lineHit (cs : Bool) (search line : Str) : Bool :=
  if cs then containsSub search line
  else containsSub (lowerStr search) (lowerStr line)

/-- Python's `str.strip()` whitespace set, restricted to ASCII. -/
def pySpace (c : Char) : Bool :=
  c = ' ' || c = '\t' || c = '\n' || c = '\x0D' || c = '\x0B' || c = '\x0C'

/-- `line.strip()` of line 414. -/
def pyStrip (s : Str) : Str :=
  ((s.dropWhile pySpace).reverse.dropWhile pySpace).reverse

/-- The display truncation of lines 415-416: strip, and cut at 100 characters
with an ellipsis. -/
def truncDisplay (s : Str) : Str :=
  let t := pyStrip s
  if 100 < t.length then t.take 100 ++ ['.', '.', '.'] else t

/-- The sample lines logged for one (rule, file) pair (lines 404-422): the
first ten 1-based numbered lines of the old content that contain the pattern
under the rule's comparison, with display truncation. -/
def reportedLines (cs : Bool) (search content : Str) : List (Nat × Str) :=
  (((numberFrom 1 (splitLines content)).filter
    (fun nl => lineHit cs search nl.2)).take 10).map
    (fun nl => (nl.1, truncDisplay nl.2))

/-! ## The per-repository pipeline `process_repo` (lines 628-807)

The pipeline is a straight-line sequence of external collaborator calls
(`git clone/checkout/fetch/rev-list/pull/add/commit/push`, GitHub PR
creation) with early `return False` on fatal failures, all inside
`try ... except Exception ... finally: os.chdir(original_dir)`.  The results
of the collaborator calls are an oracle (`GitEnv`); the state records the
ambient working directory, the ordered trace of collaborator invocations,
and the `log_entries` appended.  The call to the undefined helper
`log_failed_repo` (line 669) and a hypothetical exception inside the
substitution step are modelled as raised exceptions (`Except.error`), which
the `except` clause turns into a `Failed` log entry. -/

/-- External collaborator invocations, in the order the code can make them. -/
inductive GitOp
  | clone
  | checkoutSource
  | fetch
  | revListBehind
  | revListAhead
  | pull
  | showCurrent
  | checkoutNewBranch
  | checkoutExistingBranch
  | addAll
  | commitAll
  | push
  | createPR
deriving DecidableEq

/-- Result of `git checkout -b` (lines 724-737): success, failure whose
stderr contains `already exists`, or any other failure. -/
inductive BranchCreateResult
  | created
  | alreadyExists
  | otherFailure
deriving DecidableEq

/-- The slice of the configuration the pipeline consults. -/
structure CfgCore where
  sourceBranch : String
  caseSensitive : Bool
  replacements : List (Str × Str)
  createPR : Bool
deriving DecidableEq

/-- Oracle for the results of every external call one `process_repo`
invocation can make, plus the working tree the substitution step sees and
an injectable mid-pipeline exception. -/
structure GitEnv where
  cloneOk : Bool
  checkoutSourceOk : Bool
  fetchOk : Bool
  revBehindOk : Bool
  behind : Nat
  revAheadOk : Bool
  ahead : Nat
  pullOk : Bool
  branchCreate : BranchCreateResult
  checkoutExistingOk : Bool
  commitOk : Bool
  pushOk : Bool
  prUrl : Option String
  workFiles : List FileEntry
  substExn : Bool
deriving DecidableEq

/-- The per-repository result line appended to `log_entries`. -/
inductive ResultTag
  | cloneFailed
  | branchCheckoutFailed
  | branchCreateFailed
  | noChanges
  | commitFailed
  | pushFailed
  | prCreated (url : String)
  | pushedPrFailed
  | pushedNoPr
  | exceptionFailed (msg : String)
deriving DecidableEq

/-- Ambient state threaded through the pipeline: the process-wide current
working directory, the trace of collaborator invocations, and the
accumulated log entries. -/
structure PState where
  cwd : String
  ops : List GitOp
  entries : List (String × ResultTag)
deriving DecidableEq

/-- Record one collaborator invocation. -/
def addOp (st : PState) (op : GitOp) : PState :=
  { st with ops := st.ops ++ [op] }

/-- Append one `log_entries` line. -/
def addEntry (st : PState) (repoName : String) (tag : ResultTag) : PState :=
  { st with entries := st.entries ++ [(repoName, tag)] }

/-- The source-branch reconciliation block (lines 660-721): when a source
branch is configured, check it out (failure raises the `log_failed_repo`
`NameError` of line 669), fetch (failure only warned), then compare local
and remote with two `git rev-list --count` calls; a pull is attempted exactly
when the behind-count call succeeds with a positive count and the
ahead-count call succeeds with a zero count.  Without a source branch, only
the current branch name is read (lines 716-721). -/
def syncStage (cfg : CfgCore) (env : GitEnv) (st : PState) :
    Except (PState × String) PState :=
  if cfg.sourceBranch ≠ "" then
    let st1 := addOp st .checkoutSource
    if env.checkoutSourceOk then
      let st2 := addOp (addOp st1 .fetch) .revListBehind
      if env.revBehindOk then
        if 0 < env.behind then
          let st3 := addOp st2 .revListAhead
          if env.revAheadOk then
            if 0 < env.ahead then .ok st3
            else .ok (addOp st3 .pull)
          else .ok st3
        else .ok st2
      else .ok st2
    else .error (st1, "log_failed_repo is not defined")
  else .ok (addOp st .showCurrent)

/-- Substitution and everything after it (lines 743-800): run the engine
over the working tree; zero modified files short-circuits to the `No
changes` entry with a `True` return; otherwise stage, commit, push and
optionally create the pull request (whose failure does not fail the
pipeline). -/
def substStage (cfg : CfgCore) (env : GitEnv) (repoName : String)
    (st : PState) : Except (PState × String) (Bool × PState) :=
  if env.substExn then .error (st, "substitution error")
  else
    let res := performReplacements cfg.caseSensitive cfg.replacements env.workFiles
    if res.filesModified = 0 then .ok (true, addEntry st repoName .noChanges)
    else
      let st1 := addOp (addOp st .addAll) .commitAll
      if ¬ env.commitOk then .ok (false, addEntry st1 repoName .commitFailed)
      else
        let st2 := addOp st1 .push
        if ¬ env.pushOk then .ok (false, addEntry st2 repoName .pushFailed)
        else
          if cfg.createPR then
            let st3 := addOp st2 .createPR
            match env.prUrl with
            | some u => .ok (true, addEntry st3 repoName (.prCreated u))
            | none => .ok (true, addEntry st3 repoName .pushedPrFailed)
          else .ok (true, addEntry st2 repoName .pushedNoPr)

/-- The branch stage (lines 724-740) followed by the substitution stage:
create the target branch, falling back to checking out an existing branch,
with the two distinct failure entries of the code. -/
def branchStage (cfg : CfgCore) (env : GitEnv) (repoName : String)
    (st : PState) : Except (PState × String) (Bool × PState) :=
  let st1 := addOp st .checkoutNewBranch
  match env.branchCreate with
  | .created => substStage cfg env repoName st1
  | .alreadyExists =>
    let st2 := addOp st1 .checkoutExistingBranch
    if env.checkoutExistingOk then substStage cfg env repoName st2
    else .ok (false, addEntry st2 repoName .branchCheckoutFailed)
  | .otherFailure => .ok (false, addEntry st1 repoName .branchCreateFailed)

/-- The body of the `try` block of `process_repo` (lines 644-800): clone,
change into the repository directory, reconcile the source branch, then
branch, substitute, commit, push and publish. -/
def processRepoBody (cfg : CfgCore) (env : GitEnv) (repoName : String)
    (st0 : PState) : Except (PState × String) (Bool × PState) :=
  let st := addOp st0 .clone
  if ¬ env.cloneOk then .ok (false, addEntry st repoName .cloneFailed)
  else
    let stIn := { st with cwd := repoName }
    match syncStage cfg env stIn with
    | .error e => .error e
    | .ok st' => branchStage cfg env repoName st'

/-- `process_repo` (lines 628-807): run the body; the `except Exception`
clause appends a `Failed` entry and returns `False`; the `finally` clause
always restores the caller's working directory. -/
def processRepo (cfg : CfgCore) (env : GitEnv) (repoName : String)
    (st0 : PState) : Bool × PState :=
  match processRepoBody cfg env repoName st0 with
  | .ok (b, st) => (b, { st with cwd := st0.cwd })
  | .error (st, msg) =>
    (false, { addEntry st repoName (.exceptionFailed msg) with cwd := st0.cwd })

/-! ## Derived observation functions -/

/-- The replacement output the engine would write for one rule on one
content: the literal `str.replace` result when case-sensitive, the
`pattern.sub` result when case-insensitive. -/
def replOutput (cs : Bool) (p r s : Str) : Option Str :=
  if cs then some (pyReplace p r s) else ciSub p r s

/-- Number of files of a (fixed) file list that one rule would rewrite:
an independent recount of `rule_files_modified`. -/
def ruleModCount (cs : Bool) (rule : Str × Str) (files : List FileEntry) : Nat :=
  (files.filter (fun f => (ruleFileStep cs rule.1 rule.2 f.content).2.2)).length

/-- The per-rule `rule_files_modified` counters, each computed on the file
state the preceding rules left behind. -/
def perRuleModCounts (cs : Bool) :
    List (Str × Str) → List FileEntry → List Nat
  | [], _ => []
  | r :: rs, fs => ruleModCount cs r fs :: perRuleModCounts cs rs (runRule cs r fs).1

/-- The pipeline state carried by a stage result, whether the stage returned
or raised. -/
def exceptState : Except (PState × String) (Bool × PState) → PState
  | .ok (_, st) => st
  | .error (st, _) => st

/-! ### Scanning lemmas -/

theorem leadMatch_nil_right {p : Str} (hp : p ≠ []) : leadMatch p [] = false := by
  cases p with
  | nil => exact absurd rfl hp
  | cons a ps => rfl

theorem leadMatch_eq_true {p : Str} :
    ∀ {s : Str}, leadMatch p s = true → p ++ s.drop p.length = s := by
  induction p with
  | nil => intro s _; simp
  | cons a ps ih =>
    intro s h
    cases s with
    | nil => simp [leadMatch] at h
    | cons b ss =>
      simp only [leadMatch] at h
      split at h
      · next hab =>
        subst hab
        simpa [List.length_cons] using ih h
      · exact absurd h (by simp)

theorem splitOcc_ne_nil (p : Str) (s : Str) : splitOcc p s ≠ [] := by
  induction s using splitOcc.induct p with
  | case1 => simp [splitOcc]
  | case2 c rest h ih =>
    rw [splitOcc, if_pos h]
    simp
  | case3 c rest h ih =>
    rw [splitOcc, if_neg h]
    cases hs : splitOcc p rest with
    | nil => exact absurd hs ih
    | cons seg segs => simp [consHead]

theorem joinWith_consHead (sep : Str) (c : Char) (l : List Str) :
    joinWith sep (consHead c l) = c :: joinWith sep l := by
  cases l with
  | nil => rfl
  | cons z zs =>
    cases zs with
    | nil => rfl
    | cons w ws => simp [consHead, joinWith]

theorem length_consHead (c : Char) {l : List Str} (hl : l ≠ []) :
    (consHead c l).length = l.length := by
  cases l with
  | nil => exact absurd rfl hl
  | cons z zs => rfl

theorem length_splitOcc (p : Str) (s : Str) :
    (splitOcc p s).length = countOcc p s + 1 := by
  induction s using splitOcc.induct p with
  | case1 => simp [splitOcc, countOcc]
  | case2 c rest h ih =>
    rw [splitOcc, if_pos h, countOcc, if_pos h]
    simpa using ih
  | case3 c rest h ih =>
    rw [splitOcc, if_neg h, countOcc, if_neg h,
      length_consHead c (splitOcc_ne_nil p rest)]
    exact ih

theorem joinWith_splitOcc {p : Str} (hp : p ≠ []) (s : Str) :
    joinWith p (splitOcc p s) = s := by
  induction s using splitOcc.induct p with
  | case1 => simp [splitOcc, joinWith]
  | case2 c rest h ih =>
    rw [splitOcc, if_pos h]
    obtain hs : splitOcc p (rest.drop (p.length - 1)) ≠ [] :=
      splitOcc_ne_nil p _
    cases hz : splitOcc p (rest.drop (p.length - 1)) with
    | nil => exact absurd hz hs
    | cons z zs =>
      rw [hz] at ih
      have hjoin : joinWith p ([] :: z :: zs) = p ++ joinWith p (z :: zs) := by
        simp [joinWith]
      rw [hjoin, ih]
      have hdrop : rest.drop (p.length - 1) = (c :: rest).drop p.length := by
        cases p with
        | nil => exact absurd rfl hp
        | cons a ps => simp
      rw [hdrop]
      exact leadMatch_eq_true h.2
  | case3 c rest h ih =>
    rw [splitOcc, if_neg h, joinWith_consHead, ih]

theorem replaceOcc_eq_joinWith (p r s : Str) :
    replaceOcc p r s = joinWith r (splitOcc p s) := by
  induction s using splitOcc.induct p with
  | case1 => simp [splitOcc, replaceOcc, joinWith]
  | case2 c rest h ih =>
    rw [splitOcc, if_pos h, replaceOcc, if_pos h]
    obtain hs : splitOcc p (rest.drop (p.length - 1)) ≠ [] :=
      splitOcc_ne_nil p _
    cases hz : splitOcc p (rest.drop (p.length - 1)) with
    | nil => exact absurd hz hs
    | cons z zs =>
      rw [hz] at ih
      have hjoin : joinWith r ([] :: z :: zs) = r ++ joinWith r (z :: zs) := by
        simp [joinWith]
      rw [hjoin, ih]
  | case3 c rest h ih =>
    rw [splitOcc, if_neg h, replaceOcc, if_neg h, joinWith_consHead, ih]

theorem countOcc_eq_zero_iff {p : Str} (hp : p ≠ []) (s : Str) :
    countOcc p s = 0 ↔ containsSub p s = false := by
  induction s using countOcc.induct p with
  | case1 => simp [countOcc, containsSub, leadMatch_nil_right hp]
  | case2 c rest h ih =>
    rw [countOcc, if_pos h]
    simp [containsSub, h.2]
  | case3 c rest h ih =>
    rw [countOcc, if_neg h]
    have hlm : leadMatch p (c :: rest) = false := by
      rcases Bool.eq_false_or_eq_true (leadMatch p (c :: rest)) with ht | hf
      · exact absurd ⟨hp, ht⟩ h
      · exact hf
    simp [containsSub, hlm, ih]

/-! ### Case-insensitive scanning lemmas -/

theorem lowerStr_drop (s : Str) (n : Nat) :
    lowerStr (s.drop n) = (lowerStr s).drop n := by
  simp [lowerStr, List.map_drop]

theorem ciCountOcc_eq_lower (p : Str) (s : Str) :
    ciCountOcc p s = countOcc (lowerStr p) (lowerStr s) := by
  induction s using ciCountOcc.induct p with
  | case1 => simp [ciCountOcc, countOcc, lowerStr]
  | case2 c rest h ih =>
    rw [ciCountOcc, if_pos h]
    have hcons : lowerStr (c :: rest) = Char.toLower c :: lowerStr rest := rfl
    rw [show (lowerStr (c :: rest)) = Char.toLower c :: lowerStr rest from rfl] at *
    rw [countOcc, if_pos ?_]
    · rw [← lowerStr_drop]
      have hlen : (lowerStr p).length = p.length := by simp [lowerStr]
      rw [hlen]
      exact congrArg (· + 1) ih
    · refine ⟨?_, ?_⟩
      · simpa [lowerStr] using h.1
      · exact h.2
  | case3 c rest h ih =>
    rw [ciCountOcc, if_neg h]
    rw [show (lowerStr (c :: rest)) = Char.toLower c :: lowerStr rest from rfl]
    rw [countOcc, if_neg ?_]
    · exact ih
    · intro hcontra
      refine h ⟨?_, hcontra.2⟩
      intro hnil
      exact hcontra.1 (by simp [hnil, lowerStr])

theorem ciSplitOcc_ne_nil (p : Str) (s : Str) : ciSplitOcc p s ≠ [] := by
  induction s using ciSplitOcc.induct p with
  | case1 => simp [ciSplitOcc]
  | case2 c rest h ih =>
    rw [ciSplitOcc, if_pos h]
    simp
  | case3 c rest h ih =>
    rw [ciSplitOcc, if_neg h]
    cases hs : ciSplitOcc p rest with
    | nil => exact absurd hs ih
    | cons seg segs => simp [consHead]

theorem ciReplaceOcc_eq_joinWith (p t s : Str) :
    ciReplaceOcc p t s = joinWith t (ciSplitOcc p s) := by
  induction s using ciSplitOcc.induct p with
  | case1 => simp [ciSplitOcc, ciReplaceOcc, joinWith]
  | case2 c rest h ih =>
    rw [ciSplitOcc, if_pos h, ciReplaceOcc, if_pos h]
    obtain hs : ciSplitOcc p (rest.drop (p.length - 1)) ≠ [] :=
      ciSplitOcc_ne_nil p _
    cases hz : ciSplitOcc p (rest.drop (p.length - 1)) with
    | nil => exact absurd hz hs
    | cons z zs =>
      rw [hz] at ih
      have hjoin : joinWith t ([] :: z :: zs) = t ++ joinWith t (z :: zs) := by
        simp [joinWith]
      rw [hjoin, ih]
  | case3 c rest h ih =>
    rw [ciSplitOcc, if_neg h, ciReplaceOcc, if_neg h, joinWith_consHead, ih]

theorem expandTemplate_of_no_backslash {r : Str} (hr : '\\' ∉ r) :
    expandTemplate r = some r := by
  induction r with
  | nil => rfl
  | cons c rest ih =>
    have hc : c ≠ '\\' := by
      intro hcontra
      exact hr (by simp [hcontra])
    have hrest : '\\' ∉ rest := fun hmem => hr (List.mem_cons_of_mem c hmem)
    rw [expandTemplate.eq_def]
    simp [if_pos hc, ih hrest]

/-! ## Claim theorems -/

/-- C2: for every case-sensitive rule with a nonempty pattern, the reported
occurrence count is the number of non-overlapping literal matches of the
left-to-right scan (the scan decomposes the content into `count + 1`
segments whose interleaving with the pattern restores the content), and the
new content is that decomposition with every match replaced by the
replacement text. -/
theorem caseSensitive_count_and_replace (p r s : Str) (hp : p ≠ []) :
    (splitOcc p s).length = pyCount p s + 1 ∧
    joinWith p (splitOcc p s) = s ∧
    pyReplace p r s = joinWith r (splitOcc p s) := by
  refine ⟨?_, joinWith_splitOcc hp s, ?_⟩
  · rw [pyCount, if_neg hp]
    exact length_splitOcc p s
  · rw [pyReplace, if_neg hp]
    exact replaceOcc_eq_joinWith p r s

/-- Witness for C2 at the spec's example: pattern `foo`, replacement `bar`,
content `foofoo` gives count 2 and result `barbar`. -/
theorem caseSensitive_count_and_replace_witness :
    ("foo".toList ≠ ([] : Str)) ∧
    pyCount ("foo".toList) ("foofoo".toList) = 2 ∧
    pyReplace ("foo".toList) ("bar".toList) ("foofoo".toList) = "barbar".toList ∧
    ((splitOcc ("foo".toList) ("foofoo".toList)).length =
        pyCount ("foo".toList) ("foofoo".toList) + 1 ∧
      joinWith ("foo".toList) (splitOcc ("foo".toList) ("foofoo".toList)) =
        "foofoo".toList ∧
      pyReplace ("foo".toList) ("bar".toList) ("foofoo".toList) =
        joinWith ("bar".toList) (splitOcc ("foo".toList) ("foofoo".toList))) := by
  refine ⟨by decide, ?_, ?_,
    caseSensitive_count_and_replace ("foo".toList) ("bar".toList)
      ("foofoo".toList) (by decide)⟩
  · simp [pyCount, countOcc, leadMatch]
  · simp [pyReplace, replaceOcc, leadMatch]

/-- C3 (amended): for every case-insensitive rule with a nonempty pattern,
the pattern is matched as a literal with case-blind comparison (the count
equals the case-sensitive count of the lowered pattern in the lowered
content), and for every replacement string containing no backslash the
replacement text is inserted verbatim between the segments of the match
decomposition, not case-adapted and not reinterpreted.  (A backslash in the
replacement is interpreted by `pattern.sub` as a template escape, so the
original claim's `including ones containing backslashes` fails.) -/
theorem caseInsensitive_caseblind_and_verbatim (p r s : Str)
    (hp : p ≠ []) (hr : '\\' ∉ r) :
    ciPyCount p s = pyCount (lowerStr p) (lowerStr s) ∧
    ciSub p r s = some (ciReplaceOcc p r s) ∧
    ciReplaceOcc p r s = joinWith r (ciSplitOcc p s) := by
  have hpl : lowerStr p ≠ [] := by
    intro hcontra
    exact hp (by simpa [lowerStr] using hcontra)
  refine ⟨?_, ?_, ciReplaceOcc_eq_joinWith p r s⟩
  · rw [ciPyCount, if_neg hp, pyCount, if_neg hpl]
    exact ciCountOcc_eq_lower p s
  · rw [ciSub, expandTemplate_of_no_backslash hr]
    rw [Option.map_some', ciSplice, if_neg hp]

/-- Witness for C3 at the spec's example: pattern `Foo`, replacement `X`,
content `foo FOO fOo` gives count 3 and result `X X X`. -/
theorem caseInsensitive_caseblind_and_verbatim_witness :
    (("Foo".toList : Str) ≠ []) ∧ ('\\' ∉ ("X".toList : Str)) ∧
    ciPyCount ("Foo".toList) ("foo FOO fOo".toList) = 3 ∧
    ciSub ("Foo".toList) ("X".toList) ("foo FOO fOo".toList) =
      some ("X X X".toList) ∧
    (ciPyCount ("Foo".toList) ("foo FOO fOo".toList) =
        pyCount (lowerStr ("Foo".toList)) (lowerStr ("foo FOO fOo".toList)) ∧
      ciSub ("Foo".toList) ("X".toList) ("foo FOO fOo".toList) =
        some (ciReplaceOcc ("Foo".toList) ("X".toList) ("foo FOO fOo".toList)) ∧
      ciReplaceOcc ("Foo".toList) ("X".toList) ("foo FOO fOo".toList) =
        joinWith ("X".toList) (ciSplitOcc ("Foo".toList) ("foo FOO fOo".toList))) := by
  refine ⟨by decide, by decide, ?_, ?_,
    caseInsensitive_caseblind_and_verbatim ("Foo".toList) ("X".toList)
      ("foo FOO fOo".toList) (by decide) (by decide)⟩
  · simp [ciPyCount, ciCountOcc, ciLeadMatch, lowerStr, leadMatch]
  · simp [ciSub, expandTemplate, ciSplice, ciReplaceOcc, ciLeadMatch, lowerStr,
      leadMatch, escChar, octDigit, asciiLetter]

/-- C3 counterexample: the replacement `\n` (backslash, `n`) is not inserted
verbatim — `pattern.sub` expands it to a newline character, so the
verbatim-insertion property fails for replacement strings containing
backslashes. -/
theorem caseInsensitive_verbatim_counterexample :
    ciSub ("Foo".toList) ['\\', 'n'] ("foo".toList) = some ['\n'] ∧
    ciSplice ("Foo".toList) ['\\', 'n'] ("foo".toList) = ['\\', 'n'] ∧
    (['\n'] : Str) ≠ ['\\', 'n'] := by
  refine ⟨?_, ?_, by decide⟩
  · simp [ciSub, expandTemplate, escChar, octDigit, asciiLetter, ciSplice,
      ciReplaceOcc, ciLeadMatch, lowerStr, leadMatch]
  · simp [ciSplice, ciReplaceOcc, ciLeadMatch, lowerStr, leadMatch]

/-- C7: with pattern list `["*"]`, the selected file set contains exactly the
regular files whose root-relative path has no `.git` component: every entry
with a `.git` component at any depth is excluded, and every regular file
without one is included. -/
theorem textFiles_star_excludes_git (entries : List DirEntry)
    (globMatch : String → DirEntry → Bool) (e : DirEntry) :
    e ∈ textFiles ["*"] entries globMatch ↔
      e ∈ entries ∧ e.isFile = true ∧ ".git" ∉ e.parts := by
  simp [textFiles, gatherFiles, List.mem_filter, and_assoc]

/-! ### Lemmas for the line-sample report -/

theorem toLower_eq_newline {x : Char} (h : Char.toLower x = '\n') : x = '\n' := by
  unfold Char.toLower at h
  simp only [] at h
  by_cases hr : x.toNat ≥ 65 ∧ x.toNat ≤ 90
  · rw [if_pos hr] at h
    exfalso
    have hval : (x.toNat + 32).isValidChar := by
      left
      omega
    have h2 := congrArg Char.toNat h
    have h3 : (Char.ofNat (x.toNat + 32)).toNat = x.toNat + 32 := by
      rw [Char.ofNat, dif_pos hval]
      rfl
    have h4 : Char.toNat '\n' = 10 := by decide
    omega
  · rwa [if_neg hr] at h

theorem leadMatch_subset {p s : Str} (h : leadMatch p s = true) :
    ∀ c ∈ p, c ∈ s := by
  intro c hc
  rw [← leadMatch_eq_true h]
  exact List.mem_append_left _ hc

theorem containsSub_subset {p : Str} :
    ∀ {s : Str}, containsSub p s = true → ∀ c ∈ p, c ∈ s := by
  intro s
  induction s with
  | nil =>
    intro h c hc
    have hp : p = [] := by
      cases p with
      | nil => rfl
      | cons a ps => simp [containsSub, leadMatch] at h
    subst hp
    exact absurd hc (List.not_mem_nil c)
  | cons b ss ih =>
    intro h c hc
    rcases Bool.or_eq_true_iff.mp (by simpa [containsSub] using h) with hlead | hrest
    · exact leadMatch_subset hlead c hc
    · exact List.mem_cons_of_mem b (ih hrest c hc)

theorem splitLines_no_newline :
    ∀ (s : Str), ∀ l ∈ splitLines s, '\n' ∉ l := by
  intro s
  induction s with
  | nil =>
    intro l hl
    simp [splitLines] at hl
    simp [hl]
  | cons c rest ih =>
    intro l hl
    by_cases hc : c = '\n'
    · rw [splitLines, if_pos hc] at hl
      rcases List.mem_cons.mp hl with h0 | h0
      · simp [h0]
      · exact ih l h0
    · rw [splitLines, if_neg hc] at hl
      cases hL : splitLines rest with
      | nil =>
        rw [hL] at hl
        simp [consHead] at hl
        intro hmem
        rcases List.mem_cons.mp (hl ▸ hmem) with h0 | h0
        · exact hc h0.symm
        · exact absurd h0 (List.not_mem_nil _)
      | cons z zs =>
        rw [hL] at hl
        simp only [consHead] at hl
        rcases List.mem_cons.mp hl with h0 | h0
        · subst h0
          intro hmem
          rcases List.mem_cons.mp hmem with h1 | h1
          · exact hc h1.symm
          · exact ih z (hL ▸ List.mem_cons_self z zs) h1
        · exact ih l (hL ▸ List.mem_cons_of_mem z h0)

theorem mem_numberFrom {l : Nat × Str} :
    ∀ {n : Nat} {ls : List Str}, l ∈ numberFrom n ls → l.2 ∈ ls := by
  intro n ls
  induction ls generalizing n with
  | nil => intro h; exact absurd h (List.not_mem_nil l)
  | cons x xs ih =>
    intro h
    rcases List.mem_cons.mp h with h0 | h0
    · simp [h0]
    · exact List.mem_cons_of_mem x (ih h0)

/-- C10: for every rule whose pattern contains a newline, whenever the
whole-content occurrence count is positive the per-line sample report is
empty — line-level detection tests containment within single lines, and no
single line contains a newline. -/
theorem newline_pattern_reports_no_lines (cs : Bool) (search content : Str)
    (hn : '\n' ∈ search) (hocc : 0 < occCount cs search content) :
    reportedLines cs search content = [] := by
  have hfilter :
      (numberFrom 1 (splitLines content)).filter
        (fun nl => lineHit cs search nl.2) = [] := by
    rw [List.filter_eq_nil_iff]
    intro nl hnl
    have hline : nl.2 ∈ splitLines content := mem_numberFrom hnl
    have hnonewline : '\n' ∉ nl.2 := splitLines_no_newline content nl.2 hline
    have hcs : containsSub search nl.2 = false := by
      rcases Bool.eq_false_or_eq_true (containsSub search nl.2) with ht | hf
      · exact absurd (containsSub_subset ht '\n' hn) hnonewline
      · exact hf
    have hci : containsSub (lowerStr search) (lowerStr nl.2) = false := by
      rcases Bool.eq_false_or_eq_true
        (containsSub (lowerStr search) (lowerStr nl.2)) with ht | hf
      · exfalso
        have hnl2 : '\n' ∈ lowerStr search := by
          have hlow : Char.toLower '\n' = '\n' := by decide
          exact hlow ▸ List.mem_map_of_mem Char.toLower hn
        have hmem := containsSub_subset ht '\n' hnl2
        rcases List.mem_map.mp hmem with ⟨y, hy, hylower⟩
        exact hnonewline (toLower_eq_newline hylower ▸ hy)
      · exact hf
    cases cs <;> simp [lineHit, hcs, hci]
  rw [reportedLines, hfilter]
  rfl

/-- Witness for C10: the case-sensitive rule with pattern `a`-newline-`b`
matches the content `a`-newline-`b` once, yet no line is reported. -/
theorem newline_pattern_reports_no_lines_witness :
    ('\n' ∈ ("a\nb".toList : Str)) ∧
    0 < occCount true ("a\nb".toList) ("a\nb".toList) ∧
    reportedLines true ("a\nb".toList) ("a\nb".toList) = [] := by
  have hocc : 0 < occCount true ("a\nb".toList) ("a\nb".toList) := by
    simp [occCount, pyCount, countOcc, leadMatch]
  exact ⟨by decide, hocc,
    newline_pattern_reports_no_lines true ("a\nb".toList) ("a\nb".toList)
      (by decide) hocc⟩

/-! ### Pipeline stage lemmas -/

theorem addOp_addOp (st : PState) (a b : GitOp) :
    addOp (addOp st a) b = { st with ops := st.ops ++ [a, b] } := by
  simp [addOp]

theorem syncStage_ok (cfg : CfgCore) (env : GitEnv) (st : PState)
    (hsync : cfg.sourceBranch = "" ∨ env.checkoutSourceOk = true) :
    ∃ l : List GitOp,
      syncStage cfg env st = .ok { st with ops := st.ops ++ l } ∧
      GitOp.addAll ∉ l ∧ GitOp.commitAll ∉ l ∧ GitOp.push ∉ l ∧
      (GitOp.pull ∈ l ↔ (cfg.sourceBranch ≠ "" ∧ env.revBehindOk = true ∧
        0 < env.behind ∧ env.revAheadOk = true ∧ env.ahead = 0)) := by
  by_cases hsb : cfg.sourceBranch = ""
  · refine ⟨[.showCurrent], ?_, by simp, by simp, by simp, by simp [hsb]⟩
    simp [syncStage, hsb, addOp]
  · have hcs : env.checkoutSourceOk = true := hsync.resolve_left hsb
    by_cases hbk : env.revBehindOk = true
    · by_cases hbehind : 0 < env.behind
      · by_cases hak : env.revAheadOk = true
        · by_cases hahead : 0 < env.ahead
          · refine ⟨[.checkoutSource, .fetch, .revListBehind, .revListAhead],
              ?_, by simp, by simp, by simp, by simp; omega⟩
            simp [syncStage, hsb, hcs, hbk, hbehind, hak, hahead, addOp,
              List.append_assoc]
          · have hahead0 : env.ahead = 0 := by omega
            refine ⟨[.checkoutSource, .fetch, .revListBehind, .revListAhead, .pull],
              ?_, by simp, by simp, by simp, ?_⟩
            · simp [syncStage, hsb, hcs, hbk, hbehind, hak, hahead, addOp,
                List.append_assoc]
            · simp [hsb, hbk, hbehind, hak, hahead0]
        · have hak' : env.revAheadOk = false := by
            rcases Bool.eq_false_or_eq_true env.revAheadOk with h1 | h1
            · exact absurd h1 hak
            · exact h1
          refine ⟨[.checkoutSource, .fetch, .revListBehind, .revListAhead],
            ?_, by simp, by simp, by simp, by simp [hak']⟩
          simp [syncStage, hsb, hcs, hbk, hbehind, hak', addOp, List.append_assoc]
      · refine ⟨[.checkoutSource, .fetch, .revListBehind],
          ?_, by simp, by simp, by simp, by simp; omega⟩
        simp [syncStage, hsb, hcs, hbk, hbehind, addOp, List.append_assoc]
    · have hbk' : env.revBehindOk = false := by
        rcases Bool.eq_false_or_eq_true env.revBehindOk with h1 | h1
        · exact absurd h1 hbk
        · exact h1
      refine ⟨[.checkoutSource, .fetch, .revListBehind],
        ?_, by simp, by simp, by simp, by simp [hbk']⟩
      simp [syncStage, hsb, hcs, hbk', addOp, List.append_assoc]

theorem substStage_ops (cfg : CfgCore) (env : GitEnv) (repoName : String)
    (st : PState) :
    ∃ l : List GitOp,
      (exceptState (substStage cfg env repoName st)).ops = st.ops ++ l ∧
      GitOp.pull ∉ l := by
  by_cases hexn : env.substExn = true
  · exact ⟨[], by simp [substStage, hexn, exceptState], by simp⟩
  · have hexn' : env.substExn = false := by
      rcases Bool.eq_false_or_eq_true env.substExn with h1 | h1
      · exact absurd h1 hexn
      · exact h1
    by_cases hmod :
        (performReplacements cfg.caseSensitive cfg.replacements
          env.workFiles).filesModified = 0
    · exact ⟨[], by simp [substStage, hexn', hmod, exceptState, addEntry], by simp⟩
    · by_cases hcommit : env.commitOk = true
      · by_cases hpush : env.pushOk = true
        · by_cases hpr : cfg.createPR = true
          · cases hurl : env.prUrl with
            | some u =>
              exact ⟨[.addAll, .commitAll, .push, .createPR],
                by simp [substStage, hexn', hmod, hcommit, hpush, hpr, hurl,
                  exceptState, addEntry, addOp, List.append_assoc], by simp⟩
            | none =>
              exact ⟨[.addAll, .commitAll, .push, .createPR],
                by simp [substStage, hexn', hmod, hcommit, hpush, hpr, hurl,
                  exceptState, addEntry, addOp, List.append_assoc], by simp⟩
          · have hpr' : cfg.createPR = false := by
              rcases Bool.eq_false_or_eq_true cfg.createPR with h1 | h1
              · exact absurd h1 hpr
              · exact h1
            exact ⟨[.addAll, .commitAll, .push],
              by simp [substStage, hexn', hmod, hcommit, hpush, hpr',
                exceptState, addEntry, addOp, List.append_assoc], by simp⟩
        · have hpush' : env.pushOk = false := by
            rcases Bool.eq_false_or_eq_true env.pushOk with h1 | h1
            · exact absurd h1 hpush
            · exact h1
          exact ⟨[.addAll, .commitAll, .push],
            by simp [substStage, hexn', hmod, hcommit, hpush',
              exceptState, addEntry, addOp, List.append_assoc], by simp⟩
      · have hcommit' : env.commitOk = false := by
          rcases Bool.eq_false_or_eq_true env.commitOk with h1 | h1
          · exact absurd h1 hcommit
          · exact h1
        exact ⟨[.addAll, .commitAll],
          by simp [substStage, hexn', hmod, hcommit',
            exceptState, addEntry, addOp, List.append_assoc], by simp⟩

theorem branchStage_ops (cfg : CfgCore) (env : GitEnv) (repoName : String)
    (st : PState) :
    ∃ l : List GitOp,
      (exceptState (branchStage cfg env repoName st)).ops = st.ops ++ l ∧
      GitOp.pull ∉ l := by
  cases hbc : env.branchCreate with
  | created =>
    obtain ⟨l, hl, hpl⟩ := substStage_ops cfg env repoName (addOp st .checkoutNewBranch)
    refine ⟨.checkoutNewBranch :: l, ?_, by simp [hpl]⟩
    rw [branchStage, hbc]
    rw [hl]
    simp [addOp]
  | alreadyExists =>
    by_cases hco : env.checkoutExistingOk = true
    · obtain ⟨l, hl, hpl⟩ := substStage_ops cfg env repoName
        (addOp (addOp st .checkoutNewBranch) .checkoutExistingBranch)
      refine ⟨.checkoutNewBranch :: .checkoutExistingBranch :: l, ?_, by simp [hpl]⟩
      rw [branchStage, hbc]
      simp only [hco, if_true]
      rw [hl]
      simp [addOp]
    · have hco' : env.checkoutExistingOk = false := by
        rcases Bool.eq_false_or_eq_true env.checkoutExistingOk with h1 | h1
        · exact absurd h1 hco
        · exact h1
      refine ⟨[.checkoutNewBranch, .checkoutExistingBranch], ?_, by simp⟩
      rw [branchStage, hbc]
      simp [hco', exceptState, addEntry, addOp, List.append_assoc]
  | otherFailure =>
    refine ⟨[.checkoutNewBranch], ?_, by simp⟩
    rw [branchStage, hbc]
    simp [exceptState, addEntry, addOp]

/-- C4: for every run of the per-repository pipeline — success, `NoChanges`,
failure at any stage, or an exception raised mid-pipeline — the ambient
working directory after the run equals the directory current before it
(the `finally` clause of lines 804-807). -/
theorem processRepo_restores_cwd (cfg : CfgCore) (env : GitEnv)
    (repoName : String) (st : PState) :
    ((processRepo cfg env repoName st).2).cwd = st.cwd := by
  rw [processRepo]
  cases h : processRepoBody cfg env repoName st with
  | ok x => rfl
  | error e => rfl

theorem processRepo_ops (cfg : CfgCore) (env : GitEnv) (repoName : String)
    (st : PState) :
    ((processRepo cfg env repoName st).2).ops =
      (exceptState (processRepoBody cfg env repoName st)).ops := by
  rw [processRepo]
  cases h : processRepoBody cfg env repoName st with
  | ok x =>
    cases x with
    | mk b st' => simp [exceptState]
  | error e =>
    cases e with
    | mk st' msg => simp [exceptState, addEntry]

theorem substStage_noChanges (cfg : CfgCore) (env : GitEnv)
    (repoName : String) (st : PState)
    (hexn : env.substExn = false)
    (hmod : (performReplacements cfg.caseSensitive cfg.replacements
      env.workFiles).filesModified = 0) :
    substStage cfg env repoName st = .ok (true, addEntry st repoName .noChanges) := by
  simp [substStage, hexn, hmod]

/-- C1: with a requested source branch successfully checked out and both
`rev-list` count calls succeeding, the pull decision follows the table:
behind = 0 means no pull regardless of the ahead count; behind > 0 with
ahead = 0 performs the pull; behind > 0 with ahead > 0 never invokes the
pull and the pipeline continues with local state. -/
theorem syncPolicy_pull_decision (cfg : CfgCore) (env : GitEnv)
    (repoName : String) (st : PState)
    (hclone : env.cloneOk = true)
    (hsb : cfg.sourceBranch ≠ "")
    (hcs : env.checkoutSourceOk = true)
    (hbk : env.revBehindOk = true)
    (hak : env.revAheadOk = true)
    (hops : st.ops = []) :
    (env.behind = 0 → GitOp.pull ∉ ((processRepo cfg env repoName st).2).ops) ∧
    (0 < env.behind ∧ env.ahead = 0 →
      GitOp.pull ∈ ((processRepo cfg env repoName st).2).ops) ∧
    (0 < env.behind ∧ 0 < env.ahead →
      GitOp.pull ∉ ((processRepo cfg env repoName st).2).ops) := by
  obtain ⟨cwd0, ops0, entries0⟩ := st
  simp only at hops
  subst hops
  obtain ⟨lsync, hsyncEq, _, _, _, hpulliff⟩ :=
    syncStage_ok cfg env ⟨repoName, [GitOp.clone], entries0⟩ (Or.inr hcs)
  obtain ⟨lb, hlb, hplb⟩ := branchStage_ops cfg env repoName
    ⟨repoName, GitOp.clone :: lsync, entries0⟩
  have hbody : processRepoBody cfg env repoName ⟨cwd0, [], entries0⟩ =
      branchStage cfg env repoName ⟨repoName, GitOp.clone :: lsync, entries0⟩ := by
    have hsyncEq' : syncStage cfg env ⟨repoName, [GitOp.clone], entries0⟩ =
        .ok ⟨repoName, GitOp.clone :: lsync, entries0⟩ := by
      simpa using hsyncEq
    simp [processRepoBody, hclone, addOp, hsyncEq']
  have hopsEq : ((processRepo cfg env repoName ⟨cwd0, [], entries0⟩).2).ops =
      (GitOp.clone :: lsync) ++ lb := by
    rw [processRepo_ops, hbody, hlb]
  rw [hopsEq]
  have hmemIff : GitOp.pull ∈ (GitOp.clone :: lsync) ++ lb ↔ GitOp.pull ∈ lsync := by
    simp [List.mem_append, hplb]
  refine ⟨?_, ?_, ?_⟩
  · intro hb0
    rw [hmemIff, hpulliff]
    simp [hb0]
  · intro hcond
    rw [hmemIff, hpulliff]
    exact ⟨hsb, hbk, hcond.1, hak, hcond.2⟩
  · intro hcond
    rw [hmemIff, hpulliff]
    rintro ⟨-, -, -, -, h0⟩
    omega

/-- Witness for C1: with behind = 3 and ahead = 0 the pull is performed. -/
theorem syncPolicy_pull_decision_witness :
    ((⟨"main", true, [], false⟩ : CfgCore).sourceBranch ≠ "") ∧
    (0 < 3 ∧ (0 : Nat) = 0) ∧
    GitOp.pull ∈ ((processRepo ⟨"main", true, [], false⟩
      ⟨true, true, true, true, 3, true, 0, true, .created, true, true, true,
        none, [], false⟩ "r" ⟨"home", [], []⟩).2).ops := by
  refine ⟨by decide, ⟨by norm_num, rfl⟩, ?_⟩
  exact (syncPolicy_pull_decision ⟨"main", true, [], false⟩
    ⟨true, true, true, true, 3, true, 0, true, .created, true, true, true,
      none, [], false⟩ "r" ⟨"home", [], []⟩ rfl (by decide) rfl rfl rfl rfl).2.1
    ⟨by decide, rfl⟩

/-- C5: whenever the substitution step reports zero files modified (and the
pipeline reaches it), the run returns success with the `No changes` log
entry, and neither the stage/commit operations nor the push are ever
invoked. -/
theorem zero_modified_no_changes (cfg : CfgCore) (env : GitEnv)
    (repoName : String) (st : PState)
    (hclone : env.cloneOk = true)
    (hsync : cfg.sourceBranch = "" ∨ env.checkoutSourceOk = true)
    (hbranch : env.branchCreate = BranchCreateResult.created ∨
      (env.branchCreate = BranchCreateResult.alreadyExists ∧
        env.checkoutExistingOk = true))
    (hexn : env.substExn = false)
    (hmod : (performReplacements cfg.caseSensitive cfg.replacements
      env.workFiles).filesModified = 0)
    (hops : st.ops = []) :
    (processRepo cfg env repoName st).1 = true ∧
    ((processRepo cfg env repoName st).2).entries =
      st.entries ++ [(repoName, ResultTag.noChanges)] ∧
    GitOp.addAll ∉ ((processRepo cfg env repoName st).2).ops ∧
    GitOp.commitAll ∉ ((processRepo cfg env repoName st).2).ops ∧
    GitOp.push ∉ ((processRepo cfg env repoName st).2).ops := by
  obtain ⟨cwd0, ops0, entries0⟩ := st
  simp only at hops
  subst hops
  obtain ⟨lsync, hsyncEq, hna, hnc, hnp, _⟩ :=
    syncStage_ok cfg env ⟨repoName, [GitOp.clone], entries0⟩ hsync
  have hsyncEq' : syncStage cfg env ⟨repoName, [GitOp.clone], entries0⟩ =
      .ok ⟨repoName, GitOp.clone :: lsync, entries0⟩ := by
    simpa using hsyncEq
  rcases hbranch with hbc | ⟨hbc, hco⟩
  · have hbody : processRepoBody cfg env repoName ⟨cwd0, [], entries0⟩ =
        .ok (true, ⟨repoName, GitOp.clone :: (lsync ++ [GitOp.checkoutNewBranch]),
          entries0 ++ [(repoName, ResultTag.noChanges)]⟩) := by
      simp [processRepoBody, hclone, addOp, hsyncEq', branchStage, hbc,
        substStage, hexn, hmod, addEntry, List.append_assoc]
    rw [processRepo, hbody]
    refine ⟨rfl, by simp, ?_, ?_, ?_⟩
    · simp [hna]
    · simp [hnc]
    · simp [hnp]
  · have hbody : processRepoBody cfg env repoName ⟨cwd0, [], entries0⟩ =
        .ok (true, ⟨repoName,
          GitOp.clone :: (lsync ++ [GitOp.checkoutNewBranch, GitOp.checkoutExistingBranch]),
          entries0 ++ [(repoName, ResultTag.noChanges)]⟩) := by
      simp [processRepoBody, hclone, addOp, hsyncEq', branchStage, hbc, hco,
        substStage, hexn, hmod, addEntry, List.append_assoc]
    rw [processRepo, hbody]
    refine ⟨rfl, by simp, ?_, ?_, ?_⟩
    · simp [hna]
    · simp [hnc]
    · simp [hnp]

/-- Witness for C5: an empty rule list modifies zero files, so the run is a
success with the `No changes` entry and no stage/commit/push invocation. -/
theorem zero_modified_no_changes_witness :
    ((⟨true, true, true, true, 0, true, 0, true, .created, true, true, true,
        none, [], false⟩ : GitEnv).cloneOk = true) ∧
    ((performReplacements true [] []).filesModified = 0) ∧
    ((processRepo ⟨"", true, [], false⟩
      ⟨true, true, true, true, 0, true, 0, true, .created, true, true, true,
        none, [], false⟩ "r" ⟨"home", [], []⟩).1 = true ∧
      ((processRepo ⟨"", true, [], false⟩
        ⟨true, true, true, true, 0, true, 0, true, .created, true, true, true,
          none, [], false⟩ "r" ⟨"home", [], []⟩).2).entries =
        ([] : List (String × ResultTag)) ++ [("r", ResultTag.noChanges)] ∧
      GitOp.addAll ∉ ((processRepo ⟨"", true, [], false⟩
        ⟨true, true, true, true, 0, true, 0, true, .created, true, true, true,
          none, [], false⟩ "r" ⟨"home", [], []⟩).2).ops ∧
      GitOp.commitAll ∉ ((processRepo ⟨"", true, [], false⟩
        ⟨true, true, true, true, 0, true, 0, true, .created, true, true, true,
          none, [], false⟩ "r" ⟨"home", [], []⟩).2).ops ∧
      GitOp.push ∉ ((processRepo ⟨"", true, [], false⟩
        ⟨true, true, true, true, 0, true, 0, true, .created, true, true, true,
          none, [], false⟩ "r" ⟨"home", [], []⟩).2).ops) := by
  refine ⟨rfl, by decide, ?_⟩
  exact zero_modified_no_changes ⟨"", true, [], false⟩
    ⟨true, true, true, true, 0, true, 0, true, .created, true, true, true,
      none, [], false⟩ "r" ⟨"home", [], []⟩ rfl (Or.inl rfl) (Or.inl rfl)
    rfl (by decide) rfl

/-! ### Engine lemmas -/

theorem containsSub_nil_left (s : Str) : containsSub [] s = true := by
  cases s with
  | nil => rfl
  | cons c rest => simp [containsSub, leadMatch]

theorem pyCount_pos_contains {p s : Str} (h : 0 < pyCount p s) :
    containsSub p s = true := by
  by_cases hp : p = []
  · exact hp ▸ containsSub_nil_left s
  · rw [pyCount, if_neg hp] at h
    rcases Bool.eq_false_or_eq_true (containsSub p s) with ht | hf
    · exact ht
    · rw [← countOcc_eq_zero_iff hp] at hf
      omega

theorem ruleFileStep_no_match {cs : Bool} {p s : Str} (r : Str)
    (h : occCount cs p s = 0) :
    ruleFileStep cs p r s = (s, 0, false) := by
  cases cs with
  | true =>
    rw [occCount, if_pos rfl] at h
    have hp : p ≠ [] := by
      intro hcontra
      rw [pyCount, if_pos hcontra] at h
      omega
    rw [pyCount, if_neg hp] at h
    have hcontains : containsSub p s = false := (countOcc_eq_zero_iff hp s).mp h
    simp [ruleFileStep, hcontains]
  | false =>
    rw [occCount, if_neg (by simp)] at h
    simp [ruleFileStep, h]

theorem runRule_no_match {cs : Bool} {rule : Str × Str} {fs : List FileEntry}
    (h : ∀ f ∈ fs, occCount cs rule.1 f.content = 0) :
    runRule cs rule fs = (fs, 0, 0, []) := by
  induction fs with
  | nil => rfl
  | cons f fs ih =>
    have hstep := ruleFileStep_no_match rule.2 (h f (List.mem_cons_self f fs))
    have hrest := ih (fun g hg => h g (List.mem_cons_of_mem f hg))
    simp [runRule, hstep, hrest]

theorem runRules_no_match {cs : Bool} {rules : List (Str × Str)}
    {fs : List FileEntry}
    (h : ∀ f ∈ fs, ∀ ru ∈ rules, occCount cs ru.1 f.content = 0) :
    runRules cs rules fs = (fs, 0, 0, []) := by
  induction rules with
  | nil => rfl
  | cons r rs ih =>
    have hfirst : runRule cs r fs = (fs, 0, 0, []) :=
      runRule_no_match (fun f hf => h f hf r (List.mem_cons_self r rs))
    have hrest : runRules cs rs fs = (fs, 0, 0, []) :=
      ih (fun f hf ru hru => h f hf ru (List.mem_cons_of_mem r hru))
    simp [runRules, hfirst, hrest]

theorem performReplacements_no_match {cs : Bool} {rules : List (Str × Str)}
    {fs : List FileEntry}
    (h : ∀ f ∈ fs, ∀ ru ∈ rules, occCount cs ru.1 f.content = 0) :
    (performReplacements cs rules fs).files = fs ∧
    (performReplacements cs rules fs).filesModified = 0 ∧
    (performReplacements cs rules fs).totalReplacements = 0 ∧
    (performReplacements cs rules fs).changeDetails = [] := by
  by_cases hr : rules = []
  · simp [performReplacements, hr]
  · by_cases hf : fs = []
    · simp [performReplacements, hr, hf]
    · have hrun := runRules_no_match h
      simp [performReplacements, hr, hf, hrun]

theorem runRule_modCount (cs : Bool) (rule : Str × Str) (fs : List FileEntry) :
    (runRule cs rule fs).2.1 = ruleModCount cs rule fs := by
  induction fs with
  | nil => rfl
  | cons f fs ih =>
    rw [runRule]
    by_cases hw : (ruleFileStep cs rule.1 rule.2 f.content).2.2 = true
    · simp [hw, ruleModCount, List.filter_cons, ih]
    · have hw' : (ruleFileStep cs rule.1 rule.2 f.content).2.2 = false := by
        rcases Bool.eq_false_or_eq_true (ruleFileStep cs rule.1 rule.2 f.content).2.2
          with h1 | h1
        · exact absurd h1 hw
        · exact h1
      simp [hw', ruleModCount, List.filter_cons, ih]

theorem runRules_modSum (cs : Bool) (rules : List (Str × Str))
    (fs : List FileEntry) :
    (runRules cs rules fs).2.1 = (perRuleModCounts cs rules fs).sum := by
  induction rules generalizing fs with
  | nil => rfl
  | cons r rs ih =>
    rw [runRules, perRuleModCounts]
    simp [List.sum_cons, runRule_modCount, ih]

/-- C6: the engine is idempotent at a fixed point — if the first run leaves
every file with zero remaining occurrences for every rule, a second run over
those files rewrites nothing, modifies zero files, and logs nothing. -/
theorem engine_idempotent_at_fixed_point (cs : Bool)
    (rules : List (Str × Str)) (files : List FileEntry)
    (h : ∀ f ∈ (performReplacements cs rules files).files, ∀ ru ∈ rules,
      occCount cs ru.1 f.content = 0) :
    (performReplacements cs rules
        ((performReplacements cs rules files).files)).files =
      (performReplacements cs rules files).files ∧
    (performReplacements cs rules
        ((performReplacements cs rules files).files)).filesModified = 0 ∧
    (performReplacements cs rules
        ((performReplacements cs rules files).files)).totalReplacements = 0 ∧
    (performReplacements cs rules
        ((performReplacements cs rules files).files)).changeDetails = [] :=
  performReplacements_no_match h

/-- Witness for C6: after replacing `a` by `b` in the file `a`, no rule
matches, and a second run changes nothing. -/
theorem engine_idempotent_at_fixed_point_witness :
    (∀ f ∈ (performReplacements true [(['a'], ['b'])] [⟨[], ['a']⟩]).files,
      ∀ ru ∈ [((['a'] : Str), (['b'] : Str))], occCount true ru.1 f.content = 0) ∧
    (performReplacements true [(['a'], ['b'])]
        ((performReplacements true [(['a'], ['b'])] [⟨[], ['a']⟩]).files)).files =
      (performReplacements true [(['a'], ['b'])] [⟨[], ['a']⟩]).files ∧
    (performReplacements true [(['a'], ['b'])]
        ((performReplacements true [(['a'], ['b'])] [⟨[], ['a']⟩]).files)).filesModified = 0 := by
  have h : ∀ f ∈ (performReplacements true [(['a'], ['b'])] [⟨[], ['a']⟩]).files,
      ∀ ru ∈ [((['a'] : Str), (['b'] : Str))], occCount true ru.1 f.content = 0 := by
    have hfiles : (performReplacements true [(['a'], ['b'])] [⟨[], ['a']⟩]).files =
        [⟨[], ['b']⟩] := by
      simp [performReplacements, runRules, runRule, ruleFileStep, containsSub,
        leadMatch, pyCount, countOcc, pyReplace, replaceOcc, occCount]
    rw [hfiles]
    intro f hf ru hru
    simp only [List.mem_singleton] at hf hru
    subst hf
    subst hru
    simp [occCount, pyCount, countOcc, leadMatch]
  have hmain := engine_idempotent_at_fixed_point true [(['a'], ['b'])] [⟨[], ['a']⟩] h
  exact ⟨h, hmain.1, hmain.2.1⟩

/-- C8: the global `files_modified` count is the sum over the rules of the
per-rule modified-file counts (each taken on the file state the preceding
rules produced), so a file modified by k rules contributes k. -/
theorem filesModified_is_sum_over_rules (cs : Bool)
    (rules : List (Str × Str)) (files : List FileEntry)
    (hrules : rules ≠ []) (hfiles : files ≠ []) :
    (performReplacements cs rules files).filesModified =
      (perRuleModCounts cs rules files).sum := by
  rw [performReplacements, if_neg hrules, if_neg hfiles]
  exact runRules_modSum cs rules files

/-- Witness for C8: one file modified by two distinct rules contributes 2 to
the global count although only one distinct file exists. -/
theorem filesModified_is_sum_over_rules_witness :
    (([((['a'] : Str), (['x'] : Str)), (['b'], ['y'])] :
        List (Str × Str)) ≠ []) ∧
    (([⟨[], ['a', 'b']⟩] : List FileEntry) ≠ []) ∧
    (performReplacements true [(['a'], ['x']), (['b'], ['y'])]
        [⟨[], ['a', 'b']⟩]).filesModified =
      (perRuleModCounts true [(['a'], ['x']), (['b'], ['y'])]
        [⟨[], ['a', 'b']⟩]).sum ∧
    (performReplacements true [(['a'], ['x']), (['b'], ['y'])]
        [⟨[], ['a', 'b']⟩]).filesModified = 2 ∧
    (performReplacements true [(['a'], ['x']), (['b'], ['y'])]
        [⟨[], ['a', 'b']⟩]).files.length = 1 := by
  refine ⟨by simp, by simp, filesModified_is_sum_over_rules true _ _
    (by simp) (by simp), ?_, ?_⟩
  · simp [performReplacements, runRules, runRule, ruleFileStep, containsSub,
      leadMatch, pyCount, countOcc, pyReplace, replaceOcc]
  · simp [performReplacements, runRules, runRule, ruleFileStep, containsSub,
      leadMatch, pyCount, countOcc, pyReplace, replaceOcc]

/-- C9: when a rule's pattern occurs in a file but the replacement output
equals the original content, the engine does not rewrite the file, appends
no change-log entry, and contributes nothing to the modified-file and
total-replacement counters, despite the positive occurrence count. -/
theorem identical_replacement_not_counted (cs : Bool) (p r content : Str)
    (path : List String)
    (hocc : 0 < occCount cs p content)
    (hid : replOutput cs p r content = some content) :
    (ruleFileStep cs p r content).1 = content ∧
    (ruleFileStep cs p r content).2.2 = false ∧
    runRule cs (p, r) [⟨path, content⟩] = ([⟨path, content⟩], 0, 0, []) := by
  have hstep : (ruleFileStep cs p r content).1 = content ∧
      (ruleFileStep cs p r content).2.2 = false := by
    cases cs with
    | true =>
      rw [occCount, if_pos rfl] at hocc
      rw [replOutput, if_pos rfl, Option.some_inj] at hid
      have hcontains := pyCount_pos_contains hocc
      simp [ruleFileStep, hcontains, hid]
    | false =>
      rw [occCount, if_neg (by simp)] at hocc
      rw [replOutput, if_neg (by simp)] at hid
      have hne : ¬ (ciPyCount p content = 0) := by omega
      simp [ruleFileStep, hne, hid]
  refine ⟨hstep.1, hstep.2, ?_⟩
  simp [runRule, hstep.2]

/-- Witness for C9: the case-sensitive rule replacing `a` by `a` matches the
file `a` once but neither rewrites it nor counts it as modified. -/
theorem identical_replacement_not_counted_witness :
    (0 < occCount true ['a'] ['a']) ∧
    (replOutput true ['a'] ['a'] ['a'] = some ['a']) ∧
    ((ruleFileStep true ['a'] ['a'] ['a']).1 = ['a'] ∧
      (ruleFileStep true ['a'] ['a'] ['a']).2.2 = false ∧
      runRule true (['a'], ['a']) [⟨[], ['a']⟩] = ([⟨[], ['a']⟩], 0, 0, [])) := by
  have hocc : 0 < occCount true ['a'] ['a'] := by
    simp [occCount, pyCount, countOcc, leadMatch]
  have hid : replOutput true ['a'] ['a'] ['a'] = some ['a'] := by
    simp [replOutput, pyReplace, replaceOcc, leadMatch]
  exact ⟨hocc, hid, identical_replacement_not_counted true ['a'] ['a'] ['a'] [] hocc hid⟩

end RepoBatch
